import Mathlib

/-!
Verification development for the libremidi backend core
(`include/libremidi/backends/{jack,coremidi,pipewire}` and `error.hpp`).

The C++ sources are shallowly embedded as executable Lean definitions:
* `jack_queue::write` / `jack_queue::read` (jack/midi_out.hpp) become
  `jackWrite` / `drainGo` over a byte list, with the 4-byte little-endian
  length framing made explicit (`enc32` / `dec32`);
* `midi_out_core::send_message` (coremidi/midi_out.hpp) becomes `coreSend`,
  with the host calls `MIDIReceived` / `MIDISend` modelled as succeeding and
  their observable effect recorded as an `Emission` list;
* `jack_helpers::do_close_port` plus the process callback installed by
  `jack_helpers::connect` (jack/helpers.hpp) become a small labelled
  transition system `CloseStep`;
* `pipewire_context::register_port`, `graph::remove_port` and the registry
  event handlers (pipewire/context.hpp) become `register_port`,
  `graph.remove_port` and `processEvent`;
* `pipewire_filter::rename_port` / `remove_port` become
  `PWFilter.rename_port` / `PWFilter.remove_port`.

Bytes are modelled as `Nat` values (< 256 where produced by the code); the
`int32_t` length prefix is modelled by its four little-endian bytes with
explicit `% 256` arithmetic.
-/

/-- Little-endian byte encoding of the 4-byte length prefix that
`jack_queue::write` stores in front of every payload (`size_sz` bytes of the
`int64_t sz`, which on a little-endian host are the low four bytes). -/
def enc32 (n : Nat) : List Nat :=
  [n % 256, n / 256 % 256, n / 65536 % 256, n / 16777216 % 256]

/-- Decoding of a 4-byte little-endian length prefix, as done by the
`jack_ringbuffer_peek` into `int32_t sz` in `jack_queue::read`. -/
def dec32 : List Nat → Nat
  | [a, b, c, d] => a + 256 * b + 65536 * c + 16777216 * d
  | _ => 0

/-- One on-queue frame: 4-byte little-endian length prefix followed by the
payload, exactly the layout produced by the two `jack_ringbuffer_write`
calls in `jack_queue::write`. -/
def frameBytes (w : List Nat) : List Nat := enc32 w.length ++ w

/-- Byte contents of a queue holding the given payloads in order. -/
def framesJoin : List (List Nat) → List Nat
  | [] => []
  | w :: ws => frameBytes w ++ framesJoin ws

/-- Result of `jack_queue::write`.  `ok` carries the queue contents after the
call; `noBufferSpace` carries the (unchanged) queue contents returned with
`std::errc::no_buffer_space`; `blocked` marks the case where the code would
spin in the `sched_yield` loop until a concurrent consumer frees space
(never terminating when no consumer runs). -/
inductive WriteResult
  | ok (buf : List Nat)
  | noBufferSpace (buf : List Nat)
  | blocked
deriving DecidableEq

/-- Embedding of `jack_queue::write(data, sz)` over a queue with usable capacity `U`
(`ringbuffer_space`) currently holding `buf`:
reject with `no_buffer_space` when `sz + size_sz` exceeds `U`; otherwise
wait for free space and append the length prefix and the payload. -/
def jackWrite (U : Nat) (buf msg : List Nat) : WriteResult :=
  if U < msg.length + 4 then .noBufferSpace buf
  else if U - buf.length < msg.length + 4 then .blocked
  else .ok (buf ++ frameBytes msg)

/-- Embedding of `jack_queue::read(jack_events)` over queue contents `buf`: repeatedly
peek a 4-byte length, stop if fewer than `size_sz + sz` bytes are readable,
otherwise advance past the length and either copy the payload into the sink
(`jack_midi_event_reserve` succeeded: `accept k = true` for the `k`-th
reservation) or advance past it (reservation failed).  Returns the emitted
payloads in order together with the residual queue contents. -/
def drainGo (accept : Nat → Bool) (k : Nat) (buf : List Nat)
    (acc : List (List Nat)) : List (List Nat) × List Nat :=
  if h4 : 4 ≤ buf.length then
    if hsz : 4 + dec32 (buf.take 4) ≤ buf.length then
      if accept k then
        drainGo accept (k + 1) (buf.drop (4 + dec32 (buf.take 4)))
          (acc ++ [(buf.drop 4).take (dec32 (buf.take 4))])
      else
        drainGo accept (k + 1) (buf.drop (4 + dec32 (buf.take 4))) acc
    else (acc, buf)
  else (acc, buf)
termination_by buf.length
decreasing_by
  all_goals simp only [List.length_drop]; omega

/-- Sequence of `jack_queue::write` calls; `none` when one of them reports
`no_buffer_space` or would spin forever. -/
def writeAll (U : Nat) (buf : List Nat) : List (List Nat) → Option (List Nat)
  | [] => some buf
  | w :: ws =>
    match jackWrite U buf w with
    | .ok buf2 => writeAll U buf2 ws
    | _ => none

/-- Producer-side state of the ring as observable by the consumer:
`buf` is the byte content already published (the write index has been
advanced past it by a completed `jack_ringbuffer_write` call), and
`pending = some msg` records that the producer has published the length
prefix of `msg` but not yet its payload — i.e. it is between the two
`jack_ringbuffer_write` calls inside `jack_queue::write`. -/
structure RingState where
  buf : List Nat
  pending : Option (List Nat)
deriving DecidableEq

/-- Interleaving semantics of one producer (`jack_queue::write`, split into
its two `jack_ringbuffer_write` calls, each of which publishes by advancing
the write index) and the consumer (`jack_queue::read`, which runs some
number of its loop iterations). -/
inductive RingStep (U : Nat) : RingState → RingState → Prop
  | writeLen (s : RingState) (msg : List Nat) :
      s.pending = none → msg.length + 4 ≤ U → msg.length + 4 ≤ U - s.buf.length →
      RingStep U s ⟨s.buf ++ enc32 msg.length, some msg⟩
  | writePayload (s : RingState) (msg : List Nat) :
      s.pending = some msg →
      RingStep U s ⟨s.buf ++ msg, none⟩
  | drainAct (s : RingState) (accept : Nat → Bool) :
      RingStep U s ⟨(drainGo accept 0 s.buf []).2, s.pending⟩

/-- The "no partial frame" property claimed of the queue: whenever a 4-byte
length prefix can be peeked, the full payload is already behind it. -/
def NoPartialFrame (s : RingState) : Prop :=
  4 ≤ s.buf.length → 4 + dec32 (s.buf.take 4) ≤ s.buf.length

/-- Error codes returned by `midi_out_core::send_message`
(`std::errc` values used in coremidi/midi_out.hpp). -/
inductive CoreErr
  | invalidArgument
  | badMessage
  | messageSize
  | ioError
deriving DecidableEq

/-- Observable effect of one packet list handed to the host: published to
subscribers of the virtual endpoint (`MIDIReceived`) or sent to the bound
destination (`MIDISend`). -/
inductive Emission
  | received (ts : Nat) (payload : List Nat)
  | sent (ts : Nat) (payload : List Nat)
deriving DecidableEq

/-- Connection fields of `midi_out_core` that `send_message` reads:
whether a virtual endpoint exists (`this->endpoint`) and the bound
destination (`this->destinationId`, `0` when no port is open). -/
structure CoreOut where
  endpoint : Bool
  destinationId : Nat
deriving DecidableEq

/-- Fragmentation loop bound of `midi_out_core::send_message`: chunks of at
most 65535 bytes (`bytesForPacket = remainingBytes > 65535 ? 65535 : ...`). -/
def fragment (msg : List Nat) : List (List Nat) :=
  if h : msg = [] then []
  else msg.take 65535 :: fragment (msg.drop 65535)
termination_by msg.length
decreasing_by
  simp only [List.length_drop]
  have := List.length_pos.mpr h
  omega

/-- The packet lists emitted for one chunk: `MIDIReceived` on the virtual
endpoint when one exists, then `MIDISend` to the destination when bound.
Both host calls are modelled as returning `noErr`. -/
def emitChunk (st : CoreOut) (ts : Nat) (c : List Nat) : List Emission :=
  (if st.endpoint then [.received ts c] else [])
    ++ (if st.destinationId ≠ 0 then [.sent ts c] else [])

/-- Body of the `while (remainingBytes)` loop of
`midi_out_core::send_message`: for each chunk, `MIDIPacketListAdd` fails
(returning `message_size`) unless the packet list header (4 bytes of
`numPackets` plus the 10-byte packet header) and the chunk fit in the
`listSize`-byte stack buffer; on success the chunk is emitted. -/
def coreGo (st : CoreOut) (ts listSize : Nat) :
    List (List Nat) → Except CoreErr (List Emission)
  | [] => .ok []
  | c :: cs =>
    if 14 + c.length ≤ listSize then
      match coreGo st ts listSize cs with
      | .ok rest => .ok (emitChunk st ts c ++ rest)
      | .error e => .error e
    else .error .messageSize

/-- Embedding of `midi_out_core::send_message(message, size)`: empty input is
`invalid_argument`; a non-SysEx message longer than 3 bytes is
`bad_message`; otherwise the timestamp `ts` is captured once and the
message is fragmented into chunks of at most 65535 bytes, each emitted as a
single-packet list built in a stack buffer of
`min(size, 65535) + 16` bytes. -/
def coreSend (st : CoreOut) (ts : Nat) (msg : List Nat) :
    Except CoreErr (List Emission) :=
  match msg with
  | [] => .error .invalidArgument
  | b :: _ =>
    if b ≠ 0xF0 ∧ 3 < msg.length then .error .badMessage
    else coreGo st ts (min msg.length 65535 + 16) (fragment msg)

/-- Timestamp carried by an emission. -/
def Emission.timestamp : Emission → Nat
  | .received ts _ => ts
  | .sent ts _ => ts

/-- Payload when the emission went through the virtual-endpoint
(`MIDIReceived`) path. -/
def Emission.recvPayload : Emission → Option (List Nat)
  | .received _ p => some p
  | .sent _ _ => none

/-- Payload when the emission went through the destination-port
(`MIDISend`) path. -/
def Emission.sentPayload : Emission → Option (List Nat)
  | .received _ _ => none
  | .sent _ p => some p

/-- Program counter of the non-realtime thread running
`jack_helpers::do_close_port` on an open port. -/
inductive PPc
  | idle
  | stored
  | posted
  | acked
  | unregistered
deriving DecidableEq

/-- Program counter of the realtime process callback installed by
`jack_helpers::connect` (the self-managed-client branch): each cycle loads
the shared port slot, returns immediately when it is null, and otherwise
runs `process` and then `check_client_released`. -/
inductive CPc
  | load
  | running
  | checkRel
deriving DecidableEq

/-- Joint state of the port slot (`shared_ptr<atomic<jack_port_t*>>`), the
two handshake counters, and the two threads.  `reg` is the callback's local
copy of the port pointer (`jack_port_t* port = self.port`). -/
structure CloseState where
  port : Option Nat
  ready : Nat
  ack : Nat
  ppc : PPc
  cpc : CPc
  reg : Option Nat
deriving DecidableEq

/-- Initial state: port `p` registered, no handshake in flight, callback
between cycles. -/
def initClose (p : Nat) : CloseState :=
  ⟨some p, 0, 0, .idle, .load, none⟩

/-- Interleaving semantics of `do_close_port` and the realtime callback.

The producer steps follow jack/helpers.hpp `do_close_port`:
store null into the shared slot, then run the client-release handshake,
then `jack_port_unregister`.

Modelled from the spec: the `semaphore_pair_lock` implementation
(`detail/semaphore.hpp`, not part of the sources here) is embedded per
§4.C of the specification — `prepare_release_client` posts the
"client-ready" count and then waits on "release-ack"
(`pPost`/`pWait`), and `check_client_released`, run at the end of every
callback cycle, posts "release-ack" exactly when "client-ready" was
posted (`cCheckHit`/`cCheckMiss`). -/
inductive CloseStep : CloseState → CloseState → Prop
  | pStore (s : CloseState) :
      s.ppc = .idle →
      CloseStep s { s with port := none, ppc := .stored }
  | pPost (s : CloseState) :
      s.ppc = .stored →
      CloseStep s { s with ready := s.ready + 1, ppc := .posted }
  | pWait (s : CloseState) :
      s.ppc = .posted → 0 < s.ack →
      CloseStep s { s with ack := s.ack - 1, ppc := .acked }
  | pUnreg (s : CloseState) :
      s.ppc = .acked →
      CloseStep s { s with ppc := .unregistered }
  | cLoadNull (s : CloseState) :
      s.cpc = .load → s.port = none →
      CloseStep s { s with reg := none }
  | cLoadSome (s : CloseState) (p : Nat) :
      s.cpc = .load → s.port = some p →
      CloseStep s { s with reg := some p, cpc := .running }
  | cProcEnd (s : CloseState) :
      s.cpc = .running →
      CloseStep s { s with cpc := .checkRel }
  | cCheckHit (s : CloseState) :
      s.cpc = .checkRel → 0 < s.ready →
      CloseStep s { s with ready := s.ready - 1, ack := s.ack + 1, cpc := .load }
  | cCheckMiss (s : CloseState) :
      s.cpc = .checkRel → s.ready = 0 →
      CloseStep s { s with cpc := .load }

/-- Inductive invariant of the close-port interleaving. -/
def closeInv (s : CloseState) : Prop :=
  (s.ppc ≠ .idle → s.port = none) ∧
  s.ready + s.ack ≤ 1 ∧
  (0 < s.ready → s.ppc = .posted) ∧
  (0 < s.ack → s.ppc = .posted ∧ s.cpc = .load) ∧
  ((s.ppc = .acked ∨ s.ppc = .unregistered) → s.cpc = .load)

/-- State of `midi_out_jack_queued` as seen by `close_port`/`send_message`:
the shared port slot and the ring-queue contents.  `do_close_port` is the
sequential view of jack/helpers.hpp (the handshake blocks and the host
`jack_port_unregister` is modelled as returning 0, hence `from_errc(0)` is
success, i.e. `none`). -/
structure JackQueuedState where
  port : Option Nat
  queue : List Nat
deriving DecidableEq

/-- Error side of a jack backend call: `none` is success. -/
inductive JackErr
  | noBufferSpace
  | notConnected
deriving DecidableEq

/-- Embedding of `jack_helpers::do_close_port`: early-return success when the port slot
is already null; otherwise null the slot, run the handshake, and
unregister (host result 0). -/
def do_close_port (s : JackQueuedState) : JackQueuedState × Option JackErr :=
  match s.port with
  | none => (s, none)
  | some _ => ({ s with port := none }, none)

/-- Embedding of `midi_out_jack_queued::send_message`: a plain `queue.write`, with no
inspection of the port slot or of the message contents. -/
def sendQueued (U : Nat) (s : JackQueuedState) (msg : List Nat) : WriteResult :=
  jackWrite U s.queue msg

/-- Model of `pw_direction`: `SPA_DIRECTION_INPUT` (the zero-initialised default of
`port_info::direction`) or `SPA_DIRECTION_OUTPUT`. -/
inductive PWDirection
  | input
  | output
deriving DecidableEq

/-- Model of `pipewire_context::port_info`: the parsed record stored in the graph. -/
structure port_info where
  id : Nat
  format : String
  port_name : String
  port_alias : String
  object_path : String
  node_id : String
  port_id : String
  physical : Bool
  terminal : Bool
  monitor : Bool
  direction : PWDirection
deriving DecidableEq

/-- The value-initialised `port_info p` at the top of `register_port`,
with `p.id = info->id` already assigned. -/
def emptyPortInfo (id : Nat) : port_info :=
  ⟨id, "", "", "", "", "", "", false, false, false, .input⟩

/-- One iteration of the `spa_dict_for_each` key dispatch in
`pipewire_context::register_port`. -/
def applyProp (p : port_info) (kv : String × String) : port_info :=
  if kv.1 = "format.dsp" then { p with format := kv.2 }
  else if kv.1 = "port.name" then { p with port_name := kv.2 }
  else if kv.1 = "port.alias" then { p with port_alias := kv.2 }
  else if kv.1 = "object.path" then { p with object_path := kv.2 }
  else if kv.1 = "port.id" then { p with port_id := kv.2 }
  else if kv.1 = "node.id" then { p with node_id := kv.2 }
  else if kv.1 = "port.physical" ∧ kv.2 = "true" then { p with physical := true }
  else if kv.1 = "port.terminal" ∧ kv.2 = "true" then { p with terminal := true }
  else if kv.1 = "port.monitor" ∧ kv.2 = "true" then { p with monitor := true }
  else if kv.1 = "port.direction" then
    if kv.2 = "out" then { p with direction := .output }
    else { p with direction := .input }
  else p

/-- The whole property-dictionary parse of `register_port`. -/
def parsePortInfo (id : Nat) (props : List (String × String)) : port_info :=
  props.foldl applyProp (emptyPortInfo id)

/-- Numeric parse of the `node.id` value, as `std::stoul` behaves on the
digit-only strings PipeWire supplies. -/
def stoulModel (s : String) : Nat :=
  s.foldl (fun n c => n * 10 + (c.toNat - 48)) 0

/-- Does `pat` occur at the head of `l`? (helper for the
`std::string::find` containment test). -/
def startsWithModel : List Char → List Char → Bool
  | _, [] => true
  | [], _ :: _ => false
  | c :: l, d :: p => (c == d) && startsWithModel l p

/-- Does `pat` occur contiguously anywhere in `l`?
(`s.find(pat) != npos`). -/
def findSubstr (pat : List Char) : List Char → Bool
  | [] => startsWithModel [] pat
  | c :: rest => startsWithModel (c :: rest) pat || findSubstr pat rest

/-- Substring test `p.format.find("...") != p.format.npos`. -/
def strContains (s pat : String) : Bool := findSubstr pat.toList s.toList

/-- Model of `pipewire_context::node`: the two direction vectors of port records. -/
structure node where
  inputs : List port_info
  outputs : List port_info
deriving DecidableEq

/-- The default-constructed node that `operator[]` inserts. -/
def emptyNode : node := ⟨[], []⟩

/-- One of the four `hash_map<uint32_t, node>` members, as an association
list keyed by node id. -/
abbrev NodeMap := List (Nat × node)

/-- Embedding of `map[nid]` followed by a mutation `f` of the node: update the existing
entry, or default-insert and mutate. -/
def updNode : NodeMap → Nat → (node → node) → NodeMap
  | [], k, f => [(k, f emptyNode)]
  | (k2, v) :: rest, k, f =>
    if k2 = k then (k2, f v) :: rest else (k2, v) :: updNode rest k f

/-- Append (`push_back`) of a port record into the direction vector picked by
`p.direction`. -/
def pushPort (p : port_info) (n : node) : node :=
  match p.direction with
  | .output => { n with outputs := n.outputs ++ [p] }
  | .input => { n with inputs := n.inputs ++ [p] }

/-- Model of `pipewire_context::graph`: the four maps partitioning ports into
{physical,software} × {audio,midi}. -/
structure graph where
  physical_audio : NodeMap
  physical_midi : NodeMap
  software_audio : NodeMap
  software_midi : NodeMap
deriving DecidableEq

/-- The initially empty graph. -/
def graph.empty : graph := ⟨[], [], [], []⟩

/-- Effect of `graph::remove_port(id)` on one map: `std::erase_if` of every record
with that id from both direction vectors of every node. -/
def mapRemovePort (m : NodeMap) (id : Nat) : NodeMap :=
  m.map fun kn =>
    (kn.1,
      ⟨kn.2.inputs.filter (fun p => p.id != id),
       kn.2.outputs.filter (fun p => p.id != id)⟩)

/-- Embedding of `pipewire_context::graph::remove_port(id)`: erase from all four maps. -/
def graph.remove_port (g : graph) (id : Nat) : graph :=
  ⟨mapRemovePort g.physical_audio id,
   mapRemovePort g.physical_midi id,
   mapRemovePort g.software_audio id,
   mapRemovePort g.software_midi id⟩

/-- Embedding of `pipewire_context::register_port(info)`: parse the dictionary, drop the
event when `node.id` is absent, then classify by `physical` ×
(format contains "audio" / "midi") and push into the direction vector of
`map[node.id]`.  Unrecognised formats are ignored. -/
def register_port (g : graph) (id : Nat) (props : List (String × String)) :
    graph :=
  let p := parsePortInfo id props
  if p.node_id = "" then g
  else
    let nid := stoulModel p.node_id
    if p.physical then
      if strContains p.format "audio" then
        { g with physical_audio := updNode g.physical_audio nid (pushPort p) }
      else if strContains p.format "midi" then
        { g with physical_midi := updNode g.physical_midi nid (pushPort p) }
      else g
    else
      if strContains p.format "audio" then
        { g with software_audio := updNode g.software_audio nid (pushPort p) }
      else if strContains p.format "midi" then
        { g with software_midi := updNode g.software_midi nid (pushPort p) }
      else g

/-- A registry event as handled in the `pipewire_context` constructor:
`globalPort id props` is a `global` event of type Port together with the
port-info event its installed listener then delivers; `globalRemove` is a
`global_remove` event. -/
inductive PWEvent
  | globalPort (id : Nat) (props : List (String × String))
  | globalRemove (id : Nat)
deriving DecidableEq

/-- Graph effect of one registry event. -/
def processEvent (g : graph) : PWEvent → graph
  | .globalPort id props => register_port g id props
  | .globalRemove id => g.remove_port id

/-- Graph after a finite event sequence. -/
def processAll (events : List PWEvent) (g : graph) : graph :=
  events.foldl processEvent g

/-- Number of records with the given id in one node (both vectors). -/
def nodeCount (n : node) (id : Nat) : Nat :=
  n.inputs.countP (fun p => p.id == id) + n.outputs.countP (fun p => p.id == id)

/-- Number of records with the given id in one map. -/
def mapRecordCount (m : NodeMap) (id : Nat) : Nat :=
  (m.map fun kn => nodeCount kn.2 id).sum

/-- Number of records with the given id in the whole graph. -/
def recordCount (g : graph) (id : Nat) : Nat :=
  mapRecordCount g.physical_audio id + mapRecordCount g.physical_midi id
    + mapRecordCount g.software_audio id + mapRecordCount g.software_midi id

/-- 1 when the direction vector holds a record with the given id. -/
def slotIndicator (l : List port_info) (id : Nat) : Nat :=
  if l.any (fun p => p.id == id) then 1 else 0

/-- Number of direction vectors of one node holding the id. -/
def nodeSlots (n : node) (id : Nat) : Nat :=
  slotIndicator n.inputs id + slotIndicator n.outputs id

/-- Number of (node, direction-vector) slots of one map holding the id. -/
def mapSlotCount (m : NodeMap) (id : Nat) : Nat :=
  (m.map fun kn => nodeSlots kn.2 id).sum

/-- Number of (map, node, direction-vector) slots of the graph in which the
given port id appears. -/
def slotCount (g : graph) (id : Nat) : Nat :=
  mapSlotCount g.physical_audio id + mapSlotCount g.physical_midi id
    + mapSlotCount g.software_audio id + mapSlotCount g.software_midi id

/-- Is the event a port-info delivery for the given id? -/
def isInfoFor (id : Nat) : PWEvent → Bool
  | .globalPort j _ => j == id
  | .globalRemove _ => false

/-- Model of `pipewire_filter`: the single stored local-port handle
(`struct port* port`). -/
structure PWFilter where
  port : Option Unit
deriving DecidableEq

/-- Host-visible actions of the filter member functions. -/
inductive FilterAction
  | updateProperties (name : String)
  | removeLocalPort
deriving DecidableEq

/-- Embedding of `pipewire_filter::rename_port(port_name)`: `assert(port)` (modelled as
`none` on violation); otherwise `pw_filter_update_properties` with the new
name, then `this->port = nullptr`. -/
def PWFilter.rename_port (f : PWFilter) (name : String) :
    Option (PWFilter × List FilterAction) :=
  match f.port with
  | none => none
  | some _ => some (⟨none⟩, [.updateProperties name])

/-- Embedding of `pipewire_filter::remove_port()`: `assert(port)`; otherwise
`pw_filter_remove_port(port)`, then `this->port = nullptr`. -/
def PWFilter.remove_port (f : PWFilter) :
    Option (PWFilter × List FilterAction) :=
  match f.port with
  | none => none
  | some _ => some (⟨none⟩, [.removeLocalPort])

/-- A 65601-byte SysEx used as the concrete witness input for C2. -/
def sysexLong : List Nat := 240 :: List.replicate 65600 0

/-- Concrete final state of the close-port interleaving used as the C3
witness: the producer has unregistered the port, the callback is between
cycles. -/
def closeFinal : CloseState := ⟨none, 0, 0, .unregistered, .load, some 5⟩

theorem enc32_length (n : Nat) : (enc32 n).length = 4 := rfl

theorem dec32_enc32 (n : Nat) (h : n < 4294967296) : dec32 (enc32 n) = n := by
  simp only [enc32, dec32]
  omega

theorem frameBytes_length (w : List Nat) :
    (frameBytes w).length = 4 + w.length := by
  simp only [frameBytes, List.length_append, enc32, List.length_cons,
    List.length_nil]

/-- One-step unfolding of the `jack_queue::read` loop. -/
theorem drainGo_eq (accept : Nat → Bool) (k : Nat) (buf : List Nat)
    (acc : List (List Nat)) :
    drainGo accept k buf acc =
      if 4 ≤ buf.length then
        if 4 + dec32 (buf.take 4) ≤ buf.length then
          if accept k then
            drainGo accept (k + 1) (buf.drop (4 + dec32 (buf.take 4)))
              (acc ++ [(buf.drop 4).take (dec32 (buf.take 4))])
          else drainGo accept (k + 1) (buf.drop (4 + dec32 (buf.take 4))) acc
        else (acc, buf)
      else (acc, buf) := by
  rw [drainGo]
  split_ifs <;> rfl

/-- The read loop stops as soon as a complete frame is not available. -/
theorem drainGo_stop (accept : Nat → Bool) (k : Nat) (buf : List Nat)
    (acc : List (List Nat))
    (h : buf.length < 4 ∨ buf.length < 4 + dec32 (buf.take 4)) :
    drainGo accept k buf acc = (acc, buf) := by
  rw [drainGo_eq]
  rcases h with h | h
  · rw [if_neg (by omega)]
  · by_cases h4 : 4 ≤ buf.length
    · rw [if_pos h4, if_neg (by omega)]
    · rw [if_neg h4]

/-- An accepted reservation consumes exactly one complete frame and emits
its payload. -/
theorem drainGo_frame (accept : Nat → Bool) (k : Nat) (w t : List Nat)
    (acc : List (List Nat)) (hw : w.length < 4294967296)
    (ha : accept k = true) :
    drainGo accept k (frameBytes w ++ t) acc =
      drainGo accept (k + 1) t (acc ++ [w]) := by
  have hassoc : frameBytes w ++ t = enc32 w.length ++ (w ++ t) := by
    simp [frameBytes]
  have htake : (frameBytes w ++ t).take 4 = enc32 w.length := by
    rw [hassoc]
    exact List.take_left' (enc32_length _)
  have hdec : dec32 ((frameBytes w ++ t).take 4) = w.length := by
    rw [htake, dec32_enc32 _ hw]
  have hlen : (frameBytes w ++ t).length = 4 + w.length + t.length := by
    rw [List.length_append, frameBytes_length]
  have hdrop4 : (frameBytes w ++ t).drop 4 = w ++ t := by
    rw [hassoc]
    exact List.drop_left' (enc32_length _)
  have hdropAll : (frameBytes w ++ t).drop (4 + w.length) = t := by
    have : frameBytes w ++ t = (enc32 w.length ++ w) ++ t := by
      simp [frameBytes]
    rw [this]
    refine List.drop_left' ?_
    rw [List.length_append, enc32_length]
  rw [drainGo_eq, if_pos (by omega), hdec, if_pos (by omega), if_pos ha,
    hdropAll, hdrop4]
  rw [show (w ++ t).take w.length = w from List.take_left' rfl]

/-- Draining with an always-accepting sink over complete frames followed by
residue on which the loop stops: all frames are emitted in order and the
residue is untouched. -/
theorem drainGo_frames (rest : List Nat)
    (hrest : ∀ k acc, drainGo (fun _ => true) k rest acc = (acc, rest)) :
    ∀ (ws : List (List Nat)), (∀ w ∈ ws, w.length < 4294967296) →
      ∀ k acc, drainGo (fun _ => true) k (framesJoin ws ++ rest) acc
        = (acc ++ ws, rest) := by
  intro ws
  induction ws with
  | nil =>
    intro _ k acc
    simpa [framesJoin] using hrest k acc
  | cons w ws ih =>
    intro hws k acc
    have h1 : framesJoin (w :: ws) ++ rest
        = frameBytes w ++ (framesJoin ws ++ rest) := by
      simp [framesJoin]
    rw [h1, drainGo_frame _ _ _ _ _ (hws w (by simp)) rfl,
      ih (fun x hx => hws x (by simp [hx])) (k + 1) (acc ++ [w])]
    simp

/-- Successive `write` calls whose framed sizes fit in the free space all
succeed and append their frames in order. -/
theorem writeAll_ok (U : Nat) :
    ∀ (ws : List (List Nat)) (buf : List Nat),
      buf.length + (ws.map (fun w => w.length + 4)).sum ≤ U →
      writeAll U buf ws = some (buf ++ framesJoin ws) := by
  intro ws
  induction ws with
  | nil =>
    intro buf _
    simp [writeAll, framesJoin]
  | cons w ws ih =>
    intro buf h
    simp only [List.map_cons, List.sum_cons] at h
    have h1 : ¬ U < w.length + 4 := by omega
    have h2 : ¬ (U - buf.length < w.length + 4) := by omega
    simp only [writeAll, jackWrite, if_neg h1, if_neg h2]
    rw [ih (buf ++ frameBytes w) (by rw [List.length_append, frameBytes_length]; omega)]
    simp [framesJoin]

/-- C4: for every sequence of ring-queue writes whose total framed size
`Σ(|wᵢ|+4)` fits the usable capacity `U`, all writes succeed and a single
drain with an always-accepting sink produces exactly `w₁,…,wₙ` in write
order, byte-identical, leaving the queue empty.  (`U` is bounded by
`2^31` so that every framed length fits the `int32_t` length prefix of the
frame format.) -/
theorem C4_ring_round_trip (ws : List (List Nat)) (U : Nat)
    (hU : U ≤ 2147483648)
    (hsum : (ws.map (fun w => w.length + 4)).sum ≤ U) :
    writeAll U [] ws = some (framesJoin ws) ∧
    drainGo (fun _ => true) 0 (framesJoin ws) [] = (ws, []) := by
  have hws : ∀ w ∈ ws, w.length < 4294967296 := by
    intro w hw
    have hmem : w.length + 4 ∈ ws.map (fun w => w.length + 4) :=
      List.mem_map.mpr ⟨w, hw, rfl⟩
    have := List.single_le_sum (fun x _ => Nat.zero_le x) _ hmem
    omega
  refine ⟨?_, ?_⟩
  · simpa using writeAll_ok U ws [] (by simpa using hsum)
  · have hrest : ∀ k acc, drainGo (fun _ => true) k [] acc = (acc, []) := by
      intro k acc
      exact drainGo_stop _ _ _ _ (Or.inl (by simp))
    simpa using drainGo_frames [] hrest ws hws 0 []

/-- Witness for C4 at a concrete input: two writes into a 64-byte ring
(usable capacity 63). -/
theorem C4_witness :
    writeAll 63 [] [[144, 60, 127], [240, 247]]
      = some (framesJoin [[144, 60, 127], [240, 247]]) ∧
    drainGo (fun _ => true) 0 (framesJoin [[144, 60, 127], [240, 247]]) []
      = ([[144, 60, 127], [240, 247]], []) :=
  C4_ring_round_trip [[144, 60, 127], [240, 247]] 63 (by decide) (by decide)

/-- C5: a payload whose framed size exceeds the usable capacity is rejected
with `no_buffer_space` immediately and the queue contents are unchanged. -/
theorem C5_too_large (U : Nat) (buf w : List Nat) (h : U < w.length + 4) :
    jackWrite U buf w = .noBufferSpace buf := by
  simp [jackWrite, if_pos h]

/-- Witness for C5 at a concrete input: a 60-byte payload against usable
capacity 63. -/
theorem C5_witness :
    63 < (List.replicate 60 (0 : Nat)).length + 4 ∧
    jackWrite 63 [1, 2, 3] (List.replicate 60 0) = .noBufferSpace [1, 2, 3] :=
  ⟨by decide, C5_too_large 63 [1, 2, 3] (List.replicate 60 0) (by decide)⟩

/-- C1 counterexample: the claim requires every backend — including the
JACK queued variant — to return `InvalidArgument` for an empty message and
`BadMessage` for a non-SysEx message longer than 3 bytes.  But
`midi_out_jack_queued::send_message` is a bare `queue.write`: on a queue of
usable capacity 63, the empty message and the 4-byte non-SysEx message
`[0x90, 0x3C, 0x7F, 0x00]` are both enqueued successfully. -/
theorem C1_counterexample :
    sendQueued 63 ⟨some 1, []⟩ [] = .ok [0, 0, 0, 0] ∧
    sendQueued 63 ⟨some 1, []⟩ [144, 60, 127, 0]
      = .ok [4, 0, 0, 0, 144, 60, 127, 0] := by
  exact ⟨rfl, rfl⟩

/-- C6 counterexample: the queue CAN contain a partial frame at a point
observable to the consumer.  `jack_queue::write` publishes the 4-byte
length prefix with its first `jack_ringbuffer_write` call before the
payload is written by the second; in the state reached after that first
call for the one-byte message `[0x90]`, the consumer can peek the length
1 but zero payload bytes follow. -/
theorem C6_counterexample :
    Relation.ReflTransGen (RingStep 63) ⟨[], none⟩ ⟨[1, 0, 0, 0], some [144]⟩ ∧
    ¬ NoPartialFrame ⟨[1, 0, 0, 0], some [144]⟩ := by
  constructor
  · exact Relation.ReflTransGen.single
      (RingStep.writeLen ⟨[], none⟩ [144] rfl (by decide) (by decide))
  · simp only [NoPartialFrame]
    decide

/-- C6 as amended: the queue may transiently hold a partial frame (between
the producer's two ring writes), but the consumer never acts on one.  Over
contents consisting of complete frames followed by a strict prefix of a
frame, `jack_queue::read` emits exactly the complete frames and returns
with the partial frame untouched (it never advances past a length whose
payload has not fully arrived). -/
theorem C6_amended (ws : List (List Nat)) (f : List Nat) (m : Nat)
    (hws : ∀ w ∈ ws, w.length < 4294967296) (hf : f.length < 4294967296)
    (hm : m < (frameBytes f).length) :
    drainGo (fun _ => true) 0 (framesJoin ws ++ (frameBytes f).take m) []
      = (ws, (frameBytes f).take m) := by
  have hstuck : ∀ k acc, drainGo (fun _ => true) k ((frameBytes f).take m) acc
      = (acc, (frameBytes f).take m) := by
    intro k acc
    by_cases h4 : 4 ≤ ((frameBytes f).take m).length
    · have hmlen : ((frameBytes f).take m).length = m := by
        rw [List.length_take]
        omega
      have htake : ((frameBytes f).take m).take 4 = enc32 f.length := by
        rw [List.take_take]
        have hmin : min 4 m = 4 := by
          rw [hmlen] at h4
          omega
        rw [hmin]
        show (enc32 f.length ++ f).take 4 = enc32 f.length
        exact List.take_left' (enc32_length _)
      apply drainGo_stop
      right
      rw [htake, dec32_enc32 _ hf, hmlen]
      rw [frameBytes_length] at hm
      omega
    · exact drainGo_stop _ _ _ _ (Or.inl (by omega))
  simpa using drainGo_frames ((frameBytes f).take m) hstuck ws hws 0 []

/-- Witness for the amended C6: one complete frame for `[0x90,0x3C,0x7F]`
followed by the first 5 bytes of the frame for `[0xF0,0xF7]` (its length
prefix plus one payload byte): the drain emits the complete frame and
leaves the in-flight frame in the queue. -/
theorem C6_witness :
    drainGo (fun _ => true) 0
        (framesJoin [[144, 60, 127]] ++ (frameBytes [240, 247]).take 5) []
      = ([[144, 60, 127]], (frameBytes [240, 247]).take 5) :=
  C6_amended [[144, 60, 127]] [240, 247] 5 (by decide) (by decide) (by decide)

/-- The fragmentation loop reassembles to the original message. -/
theorem fragment_flatten (msg : List Nat) : (fragment msg).flatten = msg := by
  rw [fragment]
  split
  · rename_i h
    simp [h]
  · rename_i h
    have ih := fragment_flatten (msg.drop 65535)
    simp [List.flatten_cons, ih, List.take_append_drop]
termination_by msg.length
decreasing_by
  simp only [List.length_drop]
  rename_i h2
  have := List.length_pos.mpr h2
  omega

/-- Every chunk produced by the fragmentation loop is at most 65535 bytes
and no longer than the message. -/
theorem fragment_chunk_le (msg : List Nat) :
    ∀ c ∈ fragment msg, c.length ≤ 65535 ∧ c.length ≤ msg.length := by
  rw [fragment]
  split
  · simp
  · rename_i h
    intro c hc
    rcases List.mem_cons.mp hc with rfl | hc2
    · constructor
      · simp [List.length_take]
      · simp [List.length_take]
    · have ih := fragment_chunk_le (msg.drop 65535) c hc2
      rw [List.length_drop] at ih
      omega
termination_by msg.length
decreasing_by
  simp only [List.length_drop]
  rename_i h2
  have := List.length_pos.mpr h2
  omega

/-- The packet-list build loop never reports the validation errors. -/
theorem coreGo_no_validation_error (st : CoreOut) (ts L : Nat) :
    ∀ cs, coreGo st ts L cs ≠ .error .invalidArgument ∧
      coreGo st ts L cs ≠ .error .badMessage := by
  intro cs
  induction cs with
  | nil => simp [coreGo]
  | cons c cs ih =>
    simp only [coreGo]
    split
    · cases hgo : coreGo st ts L cs with
      | ok rest => simp
      | error e =>
        rw [hgo] at ih
        simpa using ih
    · simp

/-- When every chunk fits the stack buffer, the build loop succeeds and
emits the chunks in order. -/
theorem coreGo_ok (st : CoreOut) (ts L : Nat) :
    ∀ cs, (∀ c ∈ cs, 14 + c.length ≤ L) →
      coreGo st ts L cs = .ok ((cs.map (emitChunk st ts)).flatten) := by
  intro cs
  induction cs with
  | nil => intro _; simp [coreGo]
  | cons c cs ih =>
    intro hfit
    have h1 : 14 + c.length ≤ L := hfit c (by simp)
    simp only [coreGo, if_pos h1]
    rw [ih (fun x hx => hfit x (by simp [hx]))]
    simp

/-- A message passing the two validation checks is fragmented and emitted
successfully. -/
theorem coreSend_valid (st : CoreOut) (ts : Nat) (msg : List Nat)
    (hne : msg ≠ []) (hvalid : msg.headI = 0xF0 ∨ msg.length ≤ 3) :
    coreSend st ts msg
      = .ok (((fragment msg).map (emitChunk st ts)).flatten) := by
  match msg, hne with
  | b :: rest, _ =>
    have hcond : ¬ (b ≠ 0xF0 ∧ 3 < (b :: rest).length) := by
      rcases hvalid with h | h
      · simp only [List.headI] at h
        simp [h]
      · intro hx
        omega
    simp only [coreSend, if_neg hcond]
    apply coreGo_ok
    intro c hc
    have := fragment_chunk_le (b :: rest) c hc
    omega

/-- C1 as amended: only the CoreMIDI-class backend enforces the two
validation checks — `send_message` returns `InvalidArgument` exactly on the
empty message and `BadMessage` exactly on a non-SysEx message longer than
3 bytes, and no other input shape yields these errors — while the JACK
queued variant performs no content validation at all: its `send_message`
(`queue.write`) fails only with `NoBufferSpace`, exactly when the framed
size exceeds the usable capacity. -/
theorem C1_amended (st : CoreOut) (ts : Nat) (msg : List Nat) (U : Nat)
    (buf : List Nat) :
    (coreSend st ts msg = .error .invalidArgument ↔ msg = []) ∧
    (coreSend st ts msg = .error .badMessage
      ↔ msg ≠ [] ∧ msg.headI ≠ 0xF0 ∧ 3 < msg.length) ∧
    (jackWrite U buf msg = .noBufferSpace buf ↔ U < msg.length + 4) := by
  refine ⟨?_, ?_, ?_⟩
  · cases msg with
    | nil => simp [coreSend]
    | cons b rest =>
      simp only [coreSend]
      constructor
      · intro h
        by_cases hcond : b ≠ 0xF0 ∧ 3 < (b :: rest).length
        · rw [if_pos hcond] at h
          exact absurd h (by simp)
        · rw [if_neg hcond] at h
          exact absurd h (coreGo_no_validation_error st ts _ _).1
      · intro h
        exact absurd h (by simp)
  · cases msg with
    | nil => simp [coreSend]
    | cons b rest =>
      simp only [coreSend]
      by_cases hcond : b ≠ 0xF0 ∧ 3 < (b :: rest).length
      · rw [if_pos hcond]
        have h3 : 3 < (b :: rest).length := hcond.2
        simp only [List.headI]
        simp only [List.length_cons] at h3
        simp [hcond.1, h3]
      · rw [if_neg hcond]
        constructor
        · intro h
          exact absurd h (coreGo_no_validation_error st ts _ _).2
        · intro h
          simp only [List.headI] at h
          exact absurd ⟨h.2.1, h.2.2⟩ hcond
  · constructor
    · intro h
      by_cases hsz : U < msg.length + 4
      · exact hsz
      · rw [jackWrite, if_neg hsz] at h
        by_cases hsp : U - buf.length < msg.length + 4
        · rw [if_pos hsp] at h
          exact absurd h (by simp)
        · rw [if_neg hsp] at h
          exact absurd h (by simp)
    · intro h
      rw [jackWrite, if_pos h]

/-- Every emission for one chunk carries the given timestamp. -/
theorem emitChunk_timestamp (st : CoreOut) (ts : Nat) (c : List Nat) :
    ∀ e ∈ emitChunk st ts c, e.timestamp = ts := by
  intro e he
  simp only [emitChunk] at he
  rcases List.mem_append.mp he with h | h <;>
    · split at h <;> simp at h <;> simp [h, Emission.timestamp]

/-- Virtual-endpoint payload of the emissions for one chunk. -/
theorem emitChunk_recvPayload (st : CoreOut) (ts : Nat) (c : List Nat) :
    (emitChunk st ts c).filterMap Emission.recvPayload
      = if st.endpoint then [c] else [] := by
  simp only [emitChunk, List.filterMap_append]
  split <;> split <;> simp [Emission.recvPayload]

/-- Destination-port payload of the emissions for one chunk. -/
theorem emitChunk_sentPayload (st : CoreOut) (ts : Nat) (c : List Nat) :
    (emitChunk st ts c).filterMap Emission.sentPayload
      = if st.destinationId ≠ 0 then [c] else [] := by
  simp only [emitChunk, List.filterMap_append]
  split <;> split <;> simp [Emission.sentPayload]

/-- Lemma: `filterMap` distributes over a flattened map. -/
theorem filterMap_flatten_map {α β γ : Type} (g : β → Option γ)
    (f : α → List β) :
    ∀ l : List α, ((l.map f).flatten).filterMap g
      = (l.map (fun a => (f a).filterMap g)).flatten := by
  intro l
  induction l with
  | nil => simp
  | cons a l ih => simp [List.filterMap_append, ih]

/-- Flattening singleton chunk lists is the identity. -/
theorem flatten_map_singleton {α : Type} :
    ∀ l : List α, (l.map (fun a => [a])).flatten = l := by
  intro l
  induction l with
  | nil => simp
  | cons a l ih => simp [ih]

/-- C2: a SysEx accepted by the CoreMIDI-class `send_message` with more
than 65535 bytes is split into chunks of at most 65535 bytes, every
emitted packet carries the single timestamp captured before fragmentation,
and on each active delivery path the chunk payloads concatenate, in
emission order, back to the original message. -/
theorem C2_fragmentation (st : CoreOut) (ts : Nat) (msg : List Nat)
    (hlen : 65535 < msg.length) (hsys : msg.headI = 0xF0) :
    coreSend st ts msg
        = .ok (((fragment msg).map (emitChunk st ts)).flatten) ∧
    (∀ c ∈ fragment msg, c.length ≤ 65535) ∧
    (fragment msg).flatten = msg ∧
    (∀ e ∈ ((fragment msg).map (emitChunk st ts)).flatten,
      e.timestamp = ts) ∧
    (st.endpoint = true →
      ((((fragment msg).map (emitChunk st ts)).flatten).filterMap
          Emission.recvPayload).flatten = msg) ∧
    (st.destinationId ≠ 0 →
      ((((fragment msg).map (emitChunk st ts)).flatten).filterMap
          Emission.sentPayload).flatten = msg) := by
  have hne : msg ≠ [] := by
    intro hnil
    rw [hnil] at hlen
    simp at hlen
  refine ⟨coreSend_valid st ts msg hne (Or.inl hsys), ?_, fragment_flatten msg,
    ?_, ?_, ?_⟩
  · intro c hc
    exact (fragment_chunk_le msg c hc).1
  · intro e he
    rcases List.mem_flatten.mp he with ⟨l, hl, hel⟩
    rcases List.mem_map.mp hl with ⟨c, _, rfl⟩
    exact emitChunk_timestamp st ts c e hel
  · intro hep
    rw [filterMap_flatten_map]
    have : (fragment msg).map
        (fun c => (emitChunk st ts c).filterMap Emission.recvPayload)
        = (fragment msg).map (fun c => [c]) := by
      apply List.map_congr_left
      intro c _
      rw [emitChunk_recvPayload, if_pos hep]
    rw [this, flatten_map_singleton, fragment_flatten]
  · intro hdest
    rw [filterMap_flatten_map]
    have : (fragment msg).map
        (fun c => (emitChunk st ts c).filterMap Emission.sentPayload)
        = (fragment msg).map (fun c => [c]) := by
      apply List.map_congr_left
      intro c _
      rw [emitChunk_sentPayload, if_pos hdest]
    rw [this, flatten_map_singleton, fragment_flatten]

/-- Witness for C2 at a concrete input: a 65601-byte SysEx sent with both
delivery paths active. -/
theorem C2_witness :
    65535 < sysexLong.length ∧ sysexLong.headI = 240 ∧
    (coreSend ⟨true, 5⟩ 99 sysexLong
        = .ok (((fragment sysexLong).map (emitChunk ⟨true, 5⟩ 99)).flatten) ∧
    (∀ c ∈ fragment sysexLong, c.length ≤ 65535) ∧
    (fragment sysexLong).flatten = sysexLong ∧
    (∀ e ∈ ((fragment sysexLong).map (emitChunk ⟨true, 5⟩ 99)).flatten,
      e.timestamp = 99) ∧
    ((⟨true, 5⟩ : CoreOut).endpoint = true →
      ((((fragment sysexLong).map (emitChunk ⟨true, 5⟩ 99)).flatten).filterMap
          Emission.recvPayload).flatten = sysexLong) ∧
    ((⟨true, 5⟩ : CoreOut).destinationId ≠ 0 →
      ((((fragment sysexLong).map (emitChunk ⟨true, 5⟩ 99)).flatten).filterMap
          Emission.sentPayload).flatten = sysexLong)) := by
  have hlen2 : sysexLong.length = 65601 := by
    rw [show sysexLong = 240 :: List.replicate 65600 0 from rfl,
      List.length_cons, List.length_replicate]
  have hlen : 65535 < sysexLong.length := by omega
  exact ⟨hlen, rfl, C2_fragmentation ⟨true, 5⟩ 99 sysexLong hlen rfl⟩

/-- C9: on the CoreMIDI-class backend, a valid message sent with neither an
open port (`destinationId == 0`) nor a virtual endpoint succeeds while
emitting nothing: both delivery paths are skipped and the call is a silent
no-op. -/
theorem C9_silent_noop (ts : Nat) (msg : List Nat) (hne : msg ≠ [])
    (hvalid : msg.headI = 0xF0 ∨ msg.length ≤ 3) :
    coreSend ⟨false, 0⟩ ts msg = .ok [] := by
  rw [coreSend_valid ⟨false, 0⟩ ts msg hne hvalid]
  have : (fragment msg).map (emitChunk ⟨false, 0⟩ ts)
      = (fragment msg).map (fun _ => []) := by
    apply List.map_congr_left
    intro c _
    simp [emitChunk]
  rw [this]
  have : ∀ l : List (List Nat),
      (l.map (fun _ => ([] : List Emission))).flatten = [] := by
    intro l
    induction l with
    | nil => simp
    | cons a l ih => simp [ih]
  rw [this]

/-- Witness for C9 at a concrete input: a note-on message on a fresh
`midi_out_core` with no destination and no virtual endpoint. -/
theorem C9_witness :
    ([144, 60, 127] : List Nat) ≠ [] ∧
    coreSend ⟨false, 0⟩ 7 [144, 60, 127] = .ok [] :=
  ⟨by decide, C9_silent_noop 7 [144, 60, 127] (by decide) (Or.inr (by decide))⟩

/-- The invariant holds initially. -/
theorem closeInv_init (p : Nat) : closeInv (initClose p) := by
  refine ⟨?_, ?_, ?_, ?_, ?_⟩ <;> simp [initClose, closeInv]

/-- The invariant is preserved by every step of the interleaving. -/
theorem closeInv_step {s s2 : CloseState} (h : closeInv s)
    (hs : CloseStep s s2) : closeInv s2 := by
  obtain ⟨h1, h2, h3, h4, h5⟩ := h
  cases hs with
  | pStore hp =>
    refine ⟨fun _ => rfl, h2, ?_, ?_, ?_⟩
    · intro hr
      have hr2 : 0 < s.ready := hr
      exact absurd (hp.symm.trans (h3 hr2)) (by decide)
    · intro ha
      have ha2 : 0 < s.ack := ha
      exact absurd (hp.symm.trans (h4 ha2).1) (by decide)
    · intro hau
      rcases hau with hx | hx
      · exact absurd (show PPc.stored = PPc.acked from hx) (by decide)
      · exact absurd (show PPc.stored = PPc.unregistered from hx) (by decide)
  | pPost hp =>
    have hr0 : s.ready = 0 := by
      by_contra hne
      exact absurd (hp.symm.trans (h3 (Nat.pos_of_ne_zero hne))) (by decide)
    have ha0 : s.ack = 0 := by
      by_contra hne
      exact absurd (hp.symm.trans (h4 (Nat.pos_of_ne_zero hne)).1) (by decide)
    refine ⟨?_, ?_, fun _ => rfl, ?_, ?_⟩
    · intro _
      exact h1 (by rw [hp]; decide)
    · show s.ready + 1 + s.ack ≤ 1
      omega
    · intro ha
      have ha2 : 0 < s.ack := ha
      omega
    · intro hau
      rcases hau with hx | hx
      · exact absurd (show PPc.posted = PPc.acked from hx) (by decide)
      · exact absurd (show PPc.posted = PPc.unregistered from hx) (by decide)
  | pWait hp hack =>
    refine ⟨?_, ?_, ?_, ?_, ?_⟩
    · intro _
      exact h1 (by rw [hp]; decide)
    · show s.ready + (s.ack - 1) ≤ 1
      omega
    · intro hr
      have hr2 : 0 < s.ready := hr
      omega
    · intro ha
      have ha2 : 0 < s.ack - 1 := ha
      omega
    · intro _
      exact (h4 hack).2
  | pUnreg hp =>
    refine ⟨?_, h2, ?_, ?_, ?_⟩
    · intro _
      exact h1 (by rw [hp]; decide)
    · intro hr
      have hr2 : 0 < s.ready := hr
      exact absurd (hp.symm.trans (h3 hr2)) (by decide)
    · intro ha
      have ha2 : 0 < s.ack := ha
      exact absurd (hp.symm.trans (h4 ha2).1) (by decide)
    · intro _
      exact h5 (Or.inl hp)
  | cLoadNull hc hq =>
    exact ⟨h1, h2, h3, h4, h5⟩
  | cLoadSome p hc hq =>
    refine ⟨h1, h2, h3, ?_, ?_⟩
    · intro ha
      have ha2 : 0 < s.ack := ha
      have hnone := h1 (by rw [(h4 ha2).1]; decide)
      rw [hq] at hnone
      cases hnone
    · intro hau
      have hau2 : s.ppc = .acked ∨ s.ppc = .unregistered := hau
      have hne : s.ppc ≠ .idle := by
        rcases hau2 with hx | hx <;> (rw [hx]; decide)
      have hnone := h1 hne
      rw [hq] at hnone
      cases hnone
  | cProcEnd hc =>
    refine ⟨h1, h2, h3, ?_, ?_⟩
    · intro ha
      have ha2 : 0 < s.ack := ha
      exact absurd (hc.symm.trans (h4 ha2).2) (by decide)
    · intro hau
      have hau2 : s.ppc = .acked ∨ s.ppc = .unregistered := hau
      exact absurd (hc.symm.trans (h5 hau2)) (by decide)
  | cCheckHit hc hr =>
    have hpost := h3 hr
    refine ⟨h1, ?_, ?_, ?_, fun _ => rfl⟩
    · show s.ready - 1 + (s.ack + 1) ≤ 1
      omega
    · intro hx
      have hx2 : 0 < s.ready - 1 := hx
      omega
    · intro _
      exact ⟨hpost, rfl⟩
  | cCheckMiss hc hr0 =>
    refine ⟨h1, h2, h3, ?_, fun _ => rfl⟩
    intro ha
    have ha2 : 0 < s.ack := ha
    exact ⟨(h4 ha2).1, rfl⟩

/-- C3: safety of `jack_helpers::do_close_port`.  In every state reachable
from an open port, (a) once the producer has passed step 1
(`this->port = nullptr`) the shared slot stays null — so the null store
precedes the handshake and the unregistration, and (b) whenever the
producer has completed the client-release handshake (`ppc = acked`, about
to call `jack_port_unregister`) or has already unregistered, the realtime
callback is between cycles (`cpc = load`): the port is never unregistered
while the callback may still act on it in its current cycle, and every
later cycle loads null and returns without touching the port. -/
theorem C3_close_port_safety (p : Nat) (s : CloseState)
    (h : Relation.ReflTransGen CloseStep (initClose p) s) :
    (s.ppc ≠ .idle → s.port = none) ∧
    ((s.ppc = .acked ∨ s.ppc = .unregistered) → s.cpc = .load) := by
  have hinv : closeInv s := by
    induction h with
    | refl => exact closeInv_init p
    | tail hsteps hstep ih => exact closeInv_step ih hstep
  exact ⟨hinv.1, hinv.2.2.2.2⟩

/-- Witness for C3 along a concrete interleaving: the callback starts a
cycle with the port still registered, the producer closes the port during
that cycle, the cycle acknowledges at its end, and the producer then
unregisters. -/
theorem C3_witness :
    (closeFinal.ppc ≠ .idle → closeFinal.port = none) ∧
    ((closeFinal.ppc = .acked ∨ closeFinal.ppc = .unregistered) →
      closeFinal.cpc = .load) := by
  apply C3_close_port_safety 5
  exact Relation.ReflTransGen.tail
    (Relation.ReflTransGen.tail
      (Relation.ReflTransGen.tail
        (Relation.ReflTransGen.tail
          (Relation.ReflTransGen.tail
            (Relation.ReflTransGen.tail
              (Relation.ReflTransGen.single
                (CloseStep.cLoadSome (initClose 5) 5 rfl rfl))
              (CloseStep.pStore ⟨some 5, 0, 0, .idle, .running, some 5⟩ rfl))
            (CloseStep.pPost ⟨none, 0, 0, .stored, .running, some 5⟩ rfl))
          (CloseStep.cProcEnd ⟨none, 1, 0, .posted, .running, some 5⟩ rfl))
        (CloseStep.cCheckHit ⟨none, 1, 0, .posted, .checkRel, some 5⟩ rfl
          (by decide)))
      (CloseStep.pWait ⟨none, 0, 1, .posted, .load, some 5⟩ rfl (by decide)))
    (CloseStep.pUnreg ⟨none, 0, 0, .acked, .load, some 5⟩ rfl)

/-- C8 counterexample: closing twice does return success both times, but a
`send_message` issued after `close_port` does NOT return `NotConnected` (or
any error): on the JACK queued variant it is a bare `queue.write`, which
succeeds and enqueues the message even though no port is open.  Concretely,
starting from an open port and an empty 63-byte-usable queue, two closes
succeed and the subsequent send of `[0x90,0x3C,0x7F]` returns success. -/
theorem C8_counterexample :
    (do_close_port ⟨some 1, []⟩).2 = none ∧
    (do_close_port (do_close_port ⟨some 1, []⟩).1).2 = none ∧
    sendQueued 63 (do_close_port (do_close_port ⟨some 1, []⟩).1).1
        [144, 60, 127]
      = .ok [3, 0, 0, 0, 144, 60, 127] := by
  exact ⟨rfl, rfl, rfl⟩

/-- C8 as amended: the `close_port` call is idempotent and both calls return success
(the second is an early-return no-op, the first nulls the slot; the host
`jack_port_unregister` result is modelled as 0), but a `send_message`
issued afterwards on the JACK queued variant is not gated on the port at
all: it behaves exactly as the raw ring-queue write on the unchanged queue
contents, so it succeeds whenever the frame fits and never returns
`NotConnected`. -/
theorem C8_amended (s : JackQueuedState) (U : Nat) (msg : List Nat) :
    (do_close_port s).2 = none ∧
    (do_close_port (do_close_port s).1).2 = none ∧
    (do_close_port (do_close_port s).1).1.port = none ∧
    sendQueued U (do_close_port (do_close_port s).1).1 msg
      = jackWrite U s.queue msg := by
  cases s with
  | mk port queue =>
    cases port with
    | none => exact ⟨rfl, rfl, rfl, rfl⟩
    | some p => exact ⟨rfl, rfl, rfl, rfl⟩

/-- C10: the function `pipewire_filter::rename_port` updates the port-name property and
then nulls the stored local-port handle, so after any `rename_port` the
filter no longer references its local port and a subsequent `remove_port`
or `rename_port` violates its `assert(port)` precondition; `remove_port`
nulls the handle only after actually removing the port
(`pw_filter_remove_port`), which `rename_port` never does. -/
theorem C10_rename_nulls_port (f : PWFilter) (hopen : f.port = some ())
    (n1 n2 : String) :
    PWFilter.rename_port f n1 = some (⟨none⟩, [.updateProperties n1]) ∧
    PWFilter.rename_port (⟨none⟩ : PWFilter) n2 = none ∧
    PWFilter.remove_port (⟨none⟩ : PWFilter) = none ∧
    PWFilter.remove_port f = some (⟨none⟩, [.removeLocalPort]) := by
  cases f with
  | mk port =>
    cases hopen
    exact ⟨rfl, rfl, rfl, rfl⟩

/-- Witness for C10 at a concrete input: a filter with a live local port,
renamed to "midi-out". -/
theorem C10_witness :
    (⟨some ()⟩ : PWFilter).port = some () ∧
    (PWFilter.rename_port ⟨some ()⟩ "midi-out"
        = some (⟨none⟩, [.updateProperties "midi-out"]) ∧
      PWFilter.rename_port (⟨none⟩ : PWFilter) "x" = none ∧
      PWFilter.remove_port (⟨none⟩ : PWFilter) = none ∧
      PWFilter.remove_port ⟨some ()⟩ = some (⟨none⟩, [.removeLocalPort])) :=
  ⟨rfl, C10_rename_nulls_port ⟨some ()⟩ rfl "midi-out" "x"⟩

/-- The property-dictionary parse never changes the record id. -/
theorem parsePortInfo_id (id : Nat) (props : List (String × String)) :
    (parsePortInfo id props).id = id := by
  suffices hgen : ∀ (l : List (String × String)) (p : port_info),
      (l.foldl applyProp p).id = p.id by
    exact hgen props (emptyPortInfo id)
  intro l
  induction l with
  | nil => intro p; rfl
  | cons kv l ih =>
    intro p
    rw [List.foldl_cons, ih]
    simp only [applyProp, apply_ite port_info.id, ite_self]

/-- Appending one record to a direction vector adds its indicator to the
per-id record count. -/
theorem countP_append_single (l : List port_info) (p : port_info)
    (id : Nat) :
    (l ++ [p]).countP (fun q => q.id == id)
      = l.countP (fun q => q.id == id) + (if p.id = id then 1 else 0) := by
  rw [List.countP_append]
  simp only [List.countP_cons, List.countP_nil]
  by_cases hp : p.id = id
  · simp [hp]
  · simp [hp]

/-- Lemma: `pushPort` adds exactly the indicator of the pushed record to a node's
per-id record count. -/
theorem nodeCount_pushPort (p : port_info) (n : node) (id : Nat) :
    nodeCount (pushPort p n) id
      = nodeCount n id + (if p.id = id then 1 else 0) := by
  cases hd : p.direction <;>
    simp only [pushPort, hd, nodeCount, countP_append_single] <;> omega

/-- Lemma: `updNode … (pushPort p)` adds exactly the indicator of the pushed
record to a map's per-id record count. -/
theorem mapRecordCount_updNode (m : NodeMap) (k : Nat) (p : port_info)
    (id : Nat) :
    mapRecordCount (updNode m k (pushPort p)) id
      = mapRecordCount m id + (if p.id = id then 1 else 0) := by
  induction m with
  | nil =>
    simp only [updNode, mapRecordCount, List.map_cons, List.map_nil,
      List.sum_cons, List.sum_nil, nodeCount_pushPort]
    simp [nodeCount, emptyNode]
  | cons kn m ih =>
    by_cases hk : kn.1 = k
    · simp only [updNode]
      rw [if_pos hk]
      simp only [mapRecordCount, List.map_cons, List.sum_cons,
        nodeCount_pushPort]
      omega
    · simp only [updNode]
      rw [if_neg hk]
      simp only [mapRecordCount, List.map_cons, List.sum_cons] at *
      omega

/-- Lemma: `register_port` adds at most one record for the processed id and no
record for any other id. -/
theorem recordCount_register (g : graph) (j : Nat)
    (props : List (String × String)) (id : Nat) :
    recordCount (register_port g j props) id
      ≤ recordCount g id + (if j = id then 1 else 0) := by
  simp only [register_port]
  split
  · omega
  · have hid : (parsePortInfo j props).id = j := parsePortInfo_id j props
    split
    · split
      · simp only [recordCount, mapRecordCount_updNode, hid]
        omega
      · split
        · simp only [recordCount, mapRecordCount_updNode, hid]
          omega
        · omega
    · split
      · simp only [recordCount, mapRecordCount_updNode, hid]
        omega
      · split
        · simp only [recordCount, mapRecordCount_updNode, hid]
          omega
        · omega

/-- Filtering out an id removes every record with it. -/
theorem countP_filter_ne (l : List port_info) (id : Nat) :
    (l.filter (fun p => p.id != id)).countP (fun p => p.id == id) = 0 := by
  induction l with
  | nil => rfl
  | cons p l ih =>
    by_cases hp : p.id = id
    · simp [List.filter_cons, hp, ih]
    · simp [List.filter_cons, hp, ih]

/-- Filtering never increases a count. -/
theorem countP_filter_le (l : List port_info) (f : port_info → Bool)
    (id : Nat) :
    (l.filter f).countP (fun p => p.id == id)
      ≤ l.countP (fun p => p.id == id) := by
  induction l with
  | nil => simp
  | cons p l ih =>
    simp only [List.filter_cons, List.countP_cons]
    split
    · simp only [List.countP_cons]
      omega
    · omega

/-- Lemma: `remove_port` leaves no record with the removed id in one map. -/
theorem mapRecordCount_remove_self (m : NodeMap) (id : Nat) :
    mapRecordCount (mapRemovePort m id) id = 0 := by
  induction m with
  | nil => rfl
  | cons kn m ih =>
    simp only [mapRemovePort, List.map_cons, mapRecordCount, List.sum_cons,
      nodeCount, countP_filter_ne] at *
    omega

/-- Lemma: `remove_port` never increases any per-id record count in one map. -/
theorem mapRecordCount_remove_le (m : NodeMap) (j id : Nat) :
    mapRecordCount (mapRemovePort m j) id ≤ mapRecordCount m id := by
  induction m with
  | nil => simp [mapRemovePort, mapRecordCount]
  | cons kn m ih =>
    simp only [mapRemovePort, List.map_cons, mapRecordCount, List.sum_cons,
      nodeCount] at *
    have hi := countP_filter_le kn.2.inputs (fun p => p.id != j) id
    have ho := countP_filter_le kn.2.outputs (fun p => p.id != j) id
    omega

/-- Lemma: `graph::remove_port(id)` removes every record with that id from all
four maps. -/
theorem recordCount_remove_self (g : graph) (id : Nat) :
    recordCount (g.remove_port id) id = 0 := by
  simp only [graph.remove_port, recordCount, mapRecordCount_remove_self]

/-- Lemma: `graph::remove_port` never increases any per-id record count. -/
theorem recordCount_remove_le (g : graph) (j id : Nat) :
    recordCount (g.remove_port j) id ≤ recordCount g id := by
  simp only [graph.remove_port, recordCount]
  have h1 := mapRecordCount_remove_le g.physical_audio j id
  have h2 := mapRecordCount_remove_le g.physical_midi j id
  have h3 := mapRecordCount_remove_le g.software_audio j id
  have h4 := mapRecordCount_remove_le g.software_midi j id
  omega

/-- Per-event bound: an event adds at most one record for the id it
carries, and none for any other id. -/
theorem recordCount_processEvent (g : graph) (e : PWEvent) (id : Nat) :
    recordCount (processEvent g e) id
      ≤ recordCount g id + (if isInfoFor id e then 1 else 0) := by
  cases e with
  | globalPort j props =>
    have hreg := recordCount_register g j props id
    simp only [processEvent, isInfoFor]
    by_cases hj : j = id
    · simp only [hj, if_pos] at hreg ⊢
      simpa using hreg
    · rw [if_neg hj] at hreg
      have hb : (j == id) = false := by
        simpa using hj
      simp only [hb, Bool.false_eq_true, if_false]
      simpa using hreg
  | globalRemove j =>
    simp only [processEvent, isInfoFor]
    have := recordCount_remove_le g j id
    simpa using this

/-- Record-count bound over a whole event sequence. -/
theorem recordCount_processAll (id : Nat) :
    ∀ (events : List PWEvent) (g : graph),
      recordCount (processAll events g) id
        ≤ recordCount g id + events.countP (isInfoFor id) := by
  intro events
  induction events with
  | nil =>
    intro g
    simp [processAll]
  | cons e events ih =>
    intro g
    have h1 := ih (processEvent g e)
    have h2 := recordCount_processEvent g e id
    simp only [processAll, List.foldl_cons] at h1 ⊢
    rw [List.countP_cons]
    by_cases hb : isInfoFor id e <;> simp only [hb] at h2 ⊢ <;> simp at h2 ⊢ <;> omega

/-- A slot containing the id contributes at least one record. -/
theorem slotIndicator_le_countP (l : List port_info) (id : Nat) :
    slotIndicator l id ≤ l.countP (fun p => p.id == id) := by
  simp only [slotIndicator]
  split
  · rename_i hany
    rcases List.any_eq_true.mp hany with ⟨p, hp, hpid⟩
    have hpos : 0 < l.countP (fun p => p.id == id) :=
      List.countP_pos_iff.mpr ⟨p, hp, hpid⟩
    omega
  · omega

/-- Per-map slot count is bounded by the record count. -/
theorem mapSlotCount_le (m : NodeMap) (id : Nat) :
    mapSlotCount m id ≤ mapRecordCount m id := by
  induction m with
  | nil => simp [mapSlotCount, mapRecordCount]
  | cons kn m ih =>
    have h1 := slotIndicator_le_countP kn.2.inputs id
    have h2 := slotIndicator_le_countP kn.2.outputs id
    simp only [mapSlotCount, mapRecordCount, List.map_cons, List.sum_cons,
      nodeSlots, nodeCount] at ih ⊢
    omega

/-- Graph slot count is bounded by the record count. -/
theorem slotCount_le_recordCount (g : graph) (id : Nat) :
    slotCount g id ≤ recordCount g id := by
  simp only [slotCount, recordCount]
  have h1 := mapSlotCount_le g.physical_audio id
  have h2 := mapSlotCount_le g.physical_midi id
  have h3 := mapSlotCount_le g.software_audio id
  have h4 := mapSlotCount_le g.software_midi id
  omega

/-- C7 counterexample: the claim says that after processing ANY finite
sequence of port events, every port id appears in at most one
(map, node, direction-vector) slot.  But `register_port` never
de-duplicates: two port-info events for the same id (as PipeWire delivers
on property updates) are both inserted, and when the format changes
between them the id lands in two different maps.  Concretely, port 7 on
node 42, first reported with an audio format and then with a MIDI format,
ends up in both `physical_audio` and `physical_midi`. -/
theorem C7_counterexample :
    slotCount
      (processAll
        [.globalPort 7 [("node.id", "42"), ("port.direction", "out"),
            ("port.physical", "true"),
            ("format.dsp", "32 bit float mono audio")],
         .globalPort 7 [("node.id", "42"), ("port.direction", "out"),
            ("port.physical", "true"),
            ("format.dsp", "8 bit raw midi")]]
        graph.empty) 7 = 2 := by
  decide

/-- C7 as amended: `global_remove(id)` removes every port record with that
id from all four maps unconditionally — no port with that id remains in
the graph — and in any event sequence delivering at most one port-info
event per port id, every id appears in at most one
(map, node, direction-vector) slot. -/
theorem C7_amended (events : List PWEvent) (id : Nat)
    (h : events.countP (isInfoFor id) ≤ 1) :
    slotCount (processAll events graph.empty) id ≤ 1 ∧
    ∀ g : graph, recordCount (g.remove_port id) id = 0 := by
  constructor
  · have h1 := recordCount_processAll id events graph.empty
    have h2 := slotCount_le_recordCount (processAll events graph.empty) id
    have h0 : recordCount graph.empty id = 0 := rfl
    omega
  · intro g
    exact recordCount_remove_self g id

/-- Witness for the amended C7 at a concrete input: one port-info event
for id 7 followed by its removal. -/
theorem C7_witness :
    ([PWEvent.globalPort 7 [("node.id", "42"), ("port.direction", "out"),
        ("port.physical", "true"), ("format.dsp", "8 bit raw midi")],
      PWEvent.globalRemove 7].countP (isInfoFor 7) ≤ 1) ∧
    (slotCount
        (processAll
          [PWEvent.globalPort 7 [("node.id", "42"), ("port.direction", "out"),
              ("port.physical", "true"), ("format.dsp", "8 bit raw midi")],
            PWEvent.globalRemove 7]
          graph.empty) 7 ≤ 1 ∧
      ∀ g : graph, recordCount (g.remove_port 7) 7 = 0) :=
  ⟨by decide, C7_amended _ 7 (by decide)⟩
